import Mathlib

/-!
Shallow embedding of the `nocopy_macro` crate (src/nocopy_macro/src/lib.rs).

The crate is a derive macro: it consumes a parsed struct definition
(`syn::DeriveInput`) and either panics (modelled as `Except.error`) or emits a
union type with `new_buffer` / `as_buffer` entry points and one getter/setter
pair per field (`big_endian`, `little_endian`, `native_endian` generators,
chosen by `match_endian`).

Two layers are embedded:

1. The generation pipeline (`extract_meta`, `match_endian`, `no_copy`):
   attribute lists, field lists and the panics are modelled directly from the
   source, with panics as `Except.error`.

2. The runtime behaviour of the generated accessors: the union's storage is a
   list of bytes (`List Nat`, each < 256).  A machine integer of byte width
   `w` written natively stores `nativeBytes h w v`, where `h` is the host's
   byte order; Rust's `to_be`/`from_be`/`to_le`/`from_le` intrinsics are the
   conditional byte swap `bswap`.  The generated getter/setter bodies
   (`big_endian_get`, `big_endian_set`, ...) read/write those bytes exactly as
   the emitted `unsafe` field accesses do.
-/

namespace Buffering

/-- Little-endian byte list (length `w`) of a value, as stored in memory. -/
def toLEBytes : Nat → Nat → List Nat
  | 0, _ => []
  | w + 1, v => v % 256 :: toLEBytes w (v / 256)

/-- Decode a little-endian byte list back to a value. -/
def fromLEBytes : List Nat → Nat
  | [] => 0
  | b :: bs => b + 256 * fromLEBytes bs

/-- Big-endian byte list (length `w`) of a value. -/
def toBEBytes (w v : Nat) : List Nat :=
  (toLEBytes w v).reverse

/-- Byte swap of a `w`-byte value (what `to_be`/`from_be` do on a
little-endian host, and `to_le`/`from_le` on a big-endian one). -/
def bswap (w v : Nat) : Nat :=
  fromLEBytes ((toLEBytes w v).reverse)

/-- The host machine's byte order.  The macro's output depends on it only
through the `to_be`/`to_le`/`from_be`/`from_le` intrinsics and through how a
natively stored integer lays its bytes out in the union's storage. -/
inductive HostOrder where
  | be
  | le
deriving DecidableEq, Repr

/-- Memory bytes of a `w`-byte integer stored natively on host `h`. -/
def nativeBytes : HostOrder → Nat → Nat → List Nat
  | .le, w, v => toLEBytes w v
  | .be, w, v => toBEBytes w v

/-- Value of a natively stored byte list on host `h`. -/
def nativeDecode : HostOrder → List Nat → Nat
  | .le, bs => fromLEBytes bs
  | .be, bs => fromLEBytes bs.reverse

/-- Rust `uN::to_be`: identity on a big-endian host, byte swap otherwise. -/
def to_be (h : HostOrder) (w v : Nat) : Nat :=
  match h with
  | .be => v
  | .le => bswap w v

/-- Rust `uN::to_le`: identity on a little-endian host, byte swap otherwise. -/
def to_le (h : HostOrder) (w v : Nat) : Nat :=
  match h with
  | .be => bswap w v
  | .le => v

/-- Rust `uN::from_be` (same bit operation as `to_be`). -/
def from_be (h : HostOrder) (w v : Nat) : Nat :=
  match h with
  | .be => v
  | .le => bswap w v

/-- Rust `uN::from_le` (same bit operation as `to_le`). -/
def from_le (h : HostOrder) (w v : Nat) : Nat :=
  match h with
  | .be => bswap w v
  | .le => v

/-- Overwrite the bytes of `buf` starting at `off` with `bs`. -/
def writeBytes (buf : List Nat) (off : Nat) (bs : List Nat) : List Nat :=
  buf.take off ++ bs ++ buf.drop (off + bs.length)

/-- Read `w` bytes of `buf` starting at `off`. -/
def readBytes (buf : List Nat) (off w : Nat) : List Nat :=
  (buf.drop off).take w

/-! ## Generated accessor bodies

`big_endian`, `little_endian` and `native_endian` in the source emit a
getter/setter pair; here each pair is two functions over the union's byte
storage.  A natively stored field at byte offset `off` of width `w` holds value
`x` exactly when the bytes at `off` are `nativeBytes h w x`; hence
`self.structure.f` reads as `nativeDecode h (readBytes buf off w)` and
`self.structure.f = x` writes `writeBytes buf off (nativeBytes h w x)`. -/

/-- Getter emitted by `big_endian`: `#ty::from_be(self.structure.#ident)`. -/
def big_endian_get (h : HostOrder) (buf : List Nat) (off w : Nat) : Nat :=
  from_be h w (nativeDecode h (readBytes buf off w))

/-- Setter emitted by `big_endian`: `self.structure.#ident = v.to_be()`. -/
def big_endian_set (h : HostOrder) (buf : List Nat) (off w v : Nat) : List Nat :=
  writeBytes buf off (nativeBytes h w (to_be h w v))

/-- Getter emitted by `little_endian`: `#ty::from_le(self.structure.#ident)`. -/
def little_endian_get (h : HostOrder) (buf : List Nat) (off w : Nat) : Nat :=
  from_le h w (nativeDecode h (readBytes buf off w))

/-- Setter emitted by `little_endian`: `self.structure.#ident = v.to_le()`. -/
def little_endian_set (h : HostOrder) (buf : List Nat) (off w v : Nat) : List Nat :=
  writeBytes buf off (nativeBytes h w (to_le h w v))

/-- Getter emitted by `native_endian`: `self.structure.#ident`. -/
def native_endian_get (h : HostOrder) (buf : List Nat) (off w : Nat) : Nat :=
  nativeDecode h (readBytes buf off w)

/-- Setter emitted by `native_endian`: `self.structure.#ident = v`. -/
def native_endian_set (h : HostOrder) (buf : List Nat) (off w v : Nat) : List Nat :=
  writeBytes buf off (nativeBytes h w v)

/-! ## The generation pipeline -/

/-- The `Endian` enum of the source. -/
inductive Endian where
  | Big
  | Little
  | Default
deriving DecidableEq, Repr

/-- Which of the three generator functions `match_endian` picked for a field. -/
inductive Accessor where
  | bigAcc
  | littleAcc
  | nativeAcc
deriving DecidableEq, Repr

/-- Getter semantics of a chosen generator. -/
def accGet : Accessor → HostOrder → List Nat → Nat → Nat → Nat
  | .bigAcc => big_endian_get
  | .littleAcc => little_endian_get
  | .nativeAcc => native_endian_get

/-- Setter semantics of a chosen generator. -/
def accSet : Accessor → HostOrder → List Nat → Nat → Nat → Nat → List Nat
  | .bigAcc => big_endian_set
  | .littleAcc => little_endian_set
  | .nativeAcc => native_endian_set

/-- A field's declared type, as `match_endian` distinguishes them: the four
names it compares against (`u8`, `u16`, `u32`, `u64`) and everything else. -/
inductive RustType where
  | u8
  | u16
  | u32
  | u64
  | other (name : String)
deriving DecidableEq, Repr

/-- The type test on line 206 of the source:
`*ty == u8_ty || *ty == u16_ty || *ty == u32_ty || *ty == u64_ty`. -/
def isIntKind : RustType → Bool
  | .u8 => true
  | .u16 => true
  | .u32 => true
  | .u64 => true
  | .other _ => false

/-- `match_endian`: pick the accessor generator for one named field.  Integer
kinds follow the struct's endian attribute; every other type gets
`native_endian`. -/
def match_endian (ty : RustType) (endian : Endian) : Accessor :=
  if isIntKind ty then
    match endian with
    | .Big => .bigAcc
    | .Little => .littleAcc
    | .Default => .nativeAcc
  else
    .nativeAcc

/-- `syn::AttrStyle`. -/
inductive AttrStyle where
  | outer
  | inner
deriving DecidableEq, Repr

/-- `syn::Lit`, distinguishing string literals from every other literal. -/
inductive RLit where
  | str (s : String)
  | otherLit
deriving DecidableEq, Repr

/-- One `syn::NestedMeta` inside a parenthesized attribute list:
a `key = literal` pair, a bare path (as in `repr(C)`), or anything else. -/
inductive NestedItem where
  | nameValue (key : String) (lit : RLit)
  | metaPath (p : String)
  | otherNested
deriving DecidableEq, Repr

/-- Result of `attr.parse_meta()` with the attribute's own path split off:
a parenthesized list `path(...)`, or some other meta form. -/
inductive AttrMeta where
  | list (items : List NestedItem)
  | otherMeta
deriving DecidableEq, Repr

/-- One attribute on the struct, already parsed. -/
structure Attr where
  style : AttrStyle
  path : String
  meta : AttrMeta
deriving DecidableEq, Repr

/-- The panics `extract_meta` can raise (a panic aborts generation). -/
inductive ConfigError where
  | onlyOuter
  | malformedItem
  | badEndian
  | badMetaForm
deriving DecidableEq, Repr

/-- The endian strings recognized on lines 89-93 of the source. -/
def endianOf : String → Option Endian
  | "big" => some Endian.Big
  | "little" => some Endian.Little
  | _ => none

/-- The inner loop of `extract_meta` over the nested items of one
`nocopy_macro(...)` attribute.  State is `(ident so far, endian so far)`.
Only a `key = "string"` item is accepted; `name` and `endian` keys update the
state, any other key falls through both `if`s and is ignored. -/
def processItems : List NestedItem → Option String × Endian →
    Except ConfigError (Option String × Endian)
  | [], st => .ok st
  | .nameValue key (.str s) :: rest, st =>
    if key = "endian" then
      match endianOf s with
      | some e => processItems rest (st.1, e)
      | none => .error .badEndian
    else if key = "name" then
      processItems rest (some s, st.2)
    else
      processItems rest st
  | _ :: _, _ => .error .malformedItem

/-- The outer loop of `extract_meta` over the struct's attributes: every
attribute must be outer-style, attributes whose path is not `nocopy_macro` are
skipped, and a `nocopy_macro` attribute must parse as a meta list. -/
def processAttrs : List Attr → Option String × Endian →
    Except ConfigError (Option String × Endian)
  | [], st => .ok st
  | ⟨.inner, _, _⟩ :: _, _ => .error .onlyOuter
  | ⟨.outer, path, meta⟩ :: rest, st =>
    if path = "nocopy_macro" then
      match meta with
      | .list items =>
        match processItems items st with
        | .ok st1 => processAttrs rest st1
        | .error e => .error e
      | .otherMeta => .error .badMetaForm
    else
      processAttrs rest st

/-- `extract_meta`: resolve the generated union's name and the endian mode
from the struct's attributes; the default name is the struct name with
`Buffer` appended, the default endian is `Endian::Default` (native). -/
def extract_meta (structName : String) (attrs : List Attr) :
    Except ConfigError (String × Endian) :=
  match processAttrs attrs (none, Endian.Default) with
  | .ok (idOpt, e) => .ok (idOpt.getD (structName ++ "Buffer"), e)
  | .error e => .error e

/-- The `repr(C)` comparison on lines 226-232: an attribute parses to the meta
`repr(C)` exactly when its path is `repr` and its list is the single path
item `C`. -/
def isReprC (a : Attr) : Bool :=
  a.path = "repr" && a.meta = AttrMeta.list [NestedItem.metaPath "C"]

/-- One named field of the input struct. -/
structure FieldDef where
  name : String
  ty : RustType
deriving DecidableEq, Repr

/-- `syn::Data` as `no_copy` distinguishes it: a struct with named fields, a
struct with unnamed/unit fields, or not a struct at all. -/
inductive DataDef where
  | structNamed (fields : List FieldDef)
  | structUnnamed
  | notStructData
deriving DecidableEq, Repr

/-- `syn::DeriveInput`: the parsed item the derive macro receives. -/
structure DeriveInput where
  ident : String
  attrs : List Attr
  data : DataDef
deriving DecidableEq, Repr

/-- The panics `no_copy` itself can raise. -/
inductive SchemaError where
  | noReprC
  | notStruct
  | unnamedFields
deriving DecidableEq, Repr

/-- Any abort of the generation pass. -/
inductive GenError where
  | config (e : ConfigError)
  | schema (e : SchemaError)
deriving DecidableEq, Repr

/-- The emitted output, abstracted: the union's name, the resolved endian
mode, and per field (in order) the accessor generator used for its
getter/setter pair. -/
structure Generated where
  unionName : String
  endian : Endian
  accessors : List (String × Accessor)
deriving DecidableEq, Repr

/-- `no_copy`: the whole derive, in source order — the `repr(C)` check, then
`extract_meta`, then the match on the data shape, then one `match_endian` per
named field. -/
def no_copy (input : DeriveInput) : Except GenError Generated :=
  if (input.attrs.filter isReprC).length < 1 then
    .error (.schema .noReprC)
  else
    match extract_meta input.ident input.attrs with
    | .error e => .error (.config e)
    | .ok (attrname, endian) =>
      match input.data with
      | .structNamed fields =>
        .ok ⟨attrname, endian,
          fields.map fun f => (f.name, match_endian f.ty endian)⟩
      | .structUnnamed => .error (.schema .unnamedFields)
      | .notStructData => .error (.schema .notStruct)

/-! ## The union's construction and inspection entry points

The emitted union stores `std::mem::size_of::<#name>()` bytes;
`new_buffer` takes a byte array of exactly that length by value and
`as_buffer` returns the stored bytes. -/

/-- An instance of the generated union: `n` bytes of storage shared by the
`structure` and `buffer` views. -/
structure UnionBuf (n : Nat) where
  bytes : List Nat
  size_eq : bytes.length = n

/-- `new_buffer`: build the union from a byte array of exactly the union's
size. -/
def new_buffer (n : Nat) (B : List Nat) (hB : B.length = n) : UnionBuf n :=
  ⟨B, hB⟩

/-- `as_buffer`: view the union's current contents as bytes. -/
def as_buffer {n : Nat} (u : UnionBuf n) : List Nat :=
  u.bytes

/-! ## Specification-side description of name resolution

Used only to state the naming claim: the value of the last well-formed
`name = "..."` item among the struct's `nocopy_macro` attributes, if any. -/

/-- Last `name = "..."` value in one attribute's item list, given the value
accumulated so far. -/
def itemsLastName : List NestedItem → Option String → Option String
  | [], acc => acc
  | .nameValue key (.str s) :: rest, acc =>
    if key = "name" then itemsLastName rest (some s)
    else itemsLastName rest acc
  | _ :: rest, acc => itemsLastName rest acc

/-- Last `name = "..."` value among the outer `nocopy_macro` attributes. -/
def attrsLastName : List Attr → Option String → Option String
  | [], acc => acc
  | ⟨.outer, path, .list items⟩ :: rest, acc =>
    if path = "nocopy_macro" then attrsLastName rest (itemsLastName items acc)
    else attrsLastName rest acc
  | _ :: rest, acc => attrsLastName rest acc

/-! ## The spec's concrete scenario

Struct `Example`, fields `a : u16` and `b : u8`, attribute
`nocopy_macro(endian = "big")`, marked `repr(C)`. -/

/-- The `DeriveInput` of the scenario struct `Example`. -/
def exampleInput : DeriveInput :=
  ⟨"Example",
    [⟨.outer, "repr", .list [.metaPath "C"]⟩,
     ⟨.outer, "nocopy_macro", .list [.nameValue "endian" (.str "big")]⟩],
    .structNamed [⟨"a", .u16⟩, ⟨"b", .u8⟩]⟩

/-- What `no_copy` emits for `exampleInput`. -/
def exampleGen : Generated :=
  ⟨"ExampleBuffer", .Big, [("a", .bigAcc), ("b", .bigAcc)]⟩

/-- Modelled from the spec: the memory layout of `Example` — storage size 3,
field `a` at offset 0 width 2, field `b` at offset 2 width 1.  The real layout
and `std::mem::size_of::<Example>()` are produced by the host compiler, which
is outside this repository's sources; the spec's scenario fixes these offsets
and this size. -/
def exampleSize : Nat := 3

/-- Offset and width of field `a`, from the spec's scenario layout. -/
def exampleFieldA : Nat × Nat := (0, 2)

/-- Offset and width of field `b`, from the spec's scenario layout. -/
def exampleFieldB : Nat × Nat := (2, 1)

/-- The scenario instance: `ExampleBuffer::new_buffer([0x01, 0x02, 0x00])`. -/
def exBuf : UnionBuf exampleSize :=
  new_buffer exampleSize [1, 2, 0] rfl

/-- The generated `get_a` of `ExampleBuffer` (`a : u16`, endian big). -/
def example_get_a (h : HostOrder) (buf : List Nat) : Nat :=
  accGet (match_endian .u16 .Big) h buf exampleFieldA.1 exampleFieldA.2

/-- The generated `get_b` of `ExampleBuffer` (`b : u8`, endian big). -/
def example_get_b (h : HostOrder) (buf : List Nat) : Nat :=
  accGet (match_endian .u8 .Big) h buf exampleFieldB.1 exampleFieldB.2

/-- The generated `set_b` of `ExampleBuffer` (`b : u8`, endian big). -/
def example_set_b (h : HostOrder) (buf : List Nat) (v : Nat) : List Nat :=
  accSet (match_endian .u8 .Big) h buf exampleFieldB.1 exampleFieldB.2 v

/-! ## Byte-encoding lemmas -/

theorem toLEBytes_length (w v : Nat) : (toLEBytes w v).length = w := by
  induction w generalizing v with
  | zero => rfl
  | succ w ih => simp [toLEBytes, ih]

theorem toLEBytes_lt_256 (w v : Nat) : ∀ b ∈ toLEBytes w v, b < 256 := by
  induction w generalizing v with
  | zero => simp [toLEBytes]
  | succ w ih =>
    intro b hb
    simp only [toLEBytes, List.mem_cons] at hb
    rcases hb with hb | hb
    · subst hb
      exact Nat.mod_lt _ (by norm_num)
    · exact ih _ _ hb

theorem fromLEBytes_toLEBytes (w v : Nat) (hv : v < 256 ^ w) :
    fromLEBytes (toLEBytes w v) = v := by
  induction w generalizing v with
  | zero =>
    simp only [pow_zero, Nat.lt_one_iff] at hv
    simp [toLEBytes, fromLEBytes, hv]
  | succ w ih =>
    have hdiv : v / 256 < 256 ^ w := by
      rw [Nat.div_lt_iff_lt_mul (by norm_num)]
      calc v < 256 ^ (w + 1) := hv
        _ = 256 ^ w * 256 := by ring
    simp only [toLEBytes, fromLEBytes, ih _ hdiv]
    exact Nat.mod_add_div v 256

theorem fromLEBytes_lt (bs : List Nat) (hb : ∀ b ∈ bs, b < 256) :
    fromLEBytes bs < 256 ^ bs.length := by
  induction bs with
  | nil => simp [fromLEBytes]
  | cons b bs ih =>
    have h1 : b < 256 := hb b (by simp)
    have h2 : fromLEBytes bs < 256 ^ bs.length := ih fun x hx => hb x (by simp [hx])
    simp only [fromLEBytes, List.length_cons, pow_succ]
    calc b + 256 * fromLEBytes bs < 256 + 256 * fromLEBytes bs := by omega
      _ = 256 * (fromLEBytes bs + 1) := by ring
      _ ≤ 256 * 256 ^ bs.length := by
          exact Nat.mul_le_mul_left 256 (by omega)
      _ = 256 ^ bs.length * 256 := by ring

theorem toLEBytes_fromLEBytes (bs : List Nat) (hb : ∀ b ∈ bs, b < 256) :
    toLEBytes bs.length (fromLEBytes bs) = bs := by
  induction bs with
  | nil => rfl
  | cons b bs ih =>
    have h1 : b < 256 := hb b (by simp)
    have hmod : (b + 256 * fromLEBytes bs) % 256 = b := by
      rw [Nat.add_mul_mod_self_left]
      exact Nat.mod_eq_of_lt h1
    have hdiv : (b + 256 * fromLEBytes bs) / 256 = fromLEBytes bs := by
      rw [Nat.add_mul_div_left _ _ (by norm_num : (0:Nat) < 256)]
      simp [Nat.div_eq_of_lt h1]
    simp only [List.length_cons, fromLEBytes, toLEBytes, hmod, hdiv]
    rw [ih fun x hx => hb x (by simp [hx])]

theorem toLEBytes_fromLEBytes' (w : Nat) (bs : List Nat) (hlen : bs.length = w)
    (hb : ∀ b ∈ bs, b < 256) : toLEBytes w (fromLEBytes bs) = bs := by
  subst hlen
  exact toLEBytes_fromLEBytes bs hb

theorem toBEBytes_length (w v : Nat) : (toBEBytes w v).length = w := by
  simp [toBEBytes, toLEBytes_length]

theorem bswap_lt (w v : Nat) : bswap w v < 256 ^ w := by
  have := fromLEBytes_lt (toLEBytes w v).reverse
    (fun b hb => toLEBytes_lt_256 w v b (List.mem_reverse.mp hb))
  simpa [bswap, toLEBytes_length] using this

theorem toLEBytes_bswap (w v : Nat) :
    toLEBytes w (bswap w v) = (toLEBytes w v).reverse := by
  unfold bswap
  exact toLEBytes_fromLEBytes' w _ (by simp [toLEBytes_length])
    (fun b hb => toLEBytes_lt_256 w v b (List.mem_reverse.mp hb))

theorem bswap_bswap (w v : Nat) (hv : v < 256 ^ w) : bswap w (bswap w v) = v := by
  conv_lhs => rw [bswap, toLEBytes_bswap, List.reverse_reverse]
  exact fromLEBytes_toLEBytes w v hv

theorem nativeBytes_length (h : HostOrder) (w v : Nat) :
    (nativeBytes h w v).length = w := by
  cases h <;> simp [nativeBytes, toLEBytes_length, toBEBytes_length]

theorem nativeDecode_nativeBytes (h : HostOrder) (w v : Nat) (hv : v < 256 ^ w) :
    nativeDecode h (nativeBytes h w v) = v := by
  cases h with
  | le => exact fromLEBytes_toLEBytes w v hv
  | be =>
    simp only [nativeBytes, nativeDecode, toBEBytes, List.reverse_reverse]
    exact fromLEBytes_toLEBytes w v hv

theorem to_be_lt (h : HostOrder) (w v : Nat) (hv : v < 256 ^ w) :
    to_be h w v < 256 ^ w := by
  cases h with
  | be => exact hv
  | le => exact bswap_lt w v

theorem to_le_lt (h : HostOrder) (w v : Nat) (hv : v < 256 ^ w) :
    to_le h w v < 256 ^ w := by
  cases h with
  | be => exact bswap_lt w v
  | le => exact hv

theorem from_be_to_be (h : HostOrder) (w v : Nat) (hv : v < 256 ^ w) :
    from_be h w (to_be h w v) = v := by
  cases h with
  | be => rfl
  | le => exact bswap_bswap w v hv

theorem from_le_to_le (h : HostOrder) (w v : Nat) (hv : v < 256 ^ w) :
    from_le h w (to_le h w v) = v := by
  cases h with
  | be => exact bswap_bswap w v hv
  | le => rfl

theorem nativeBytes_to_be (h : HostOrder) (w v : Nat) :
    nativeBytes h w (to_be h w v) = toBEBytes w v := by
  cases h with
  | be => rfl
  | le => simp [nativeBytes, to_be, toBEBytes, toLEBytes_bswap]

theorem nativeBytes_to_le (h : HostOrder) (w v : Nat) :
    nativeBytes h w (to_le h w v) = toLEBytes w v := by
  cases h with
  | le => rfl
  | be => simp [nativeBytes, to_le, toBEBytes, toLEBytes_bswap]

/-! ## Buffer read/write lemmas -/

theorem writeBytes_length (buf bs : List Nat) (off : Nat)
    (h : off + bs.length ≤ buf.length) :
    (writeBytes buf off bs).length = buf.length := by
  simp only [writeBytes, List.length_append, List.length_take, List.length_drop]
  omega

theorem readBytes_writeBytes (buf bs : List Nat) (off : Nat)
    (h : off ≤ buf.length) :
    readBytes (writeBytes buf off bs) off bs.length = bs := by
  unfold readBytes writeBytes
  rw [List.append_assoc, List.drop_left' (by simp; omega),
    List.take_left' rfl]

theorem writeBytes_take (buf bs : List Nat) (off : Nat) (h : off ≤ buf.length) :
    (writeBytes buf off bs).take off = buf.take off := by
  unfold writeBytes
  rw [List.append_assoc, List.take_left' (by simp; omega)]

theorem writeBytes_drop (buf bs : List Nat) (off : Nat) (h : off ≤ buf.length) :
    (writeBytes buf off bs).drop (off + bs.length) = buf.drop (off + bs.length) := by
  unfold writeBytes
  rw [List.drop_left' (by simp; omega)]

/-! ## Accessor-level lemmas -/

theorem accSet_as_writeBytes (a : Accessor) (h : HostOrder) (buf : List Nat)
    (off w v : Nat) :
    ∃ bs : List Nat, bs.length = w ∧
      accSet a h buf off w v = writeBytes buf off bs := by
  cases a with
  | bigAcc => exact ⟨_, nativeBytes_length h w _, rfl⟩
  | littleAcc => exact ⟨_, nativeBytes_length h w _, rfl⟩
  | nativeAcc => exact ⟨_, nativeBytes_length h w _, rfl⟩

theorem read_after_write (h : HostOrder) (buf : List Nat) (off w x : Nat)
    (hoff : off ≤ buf.length) :
    readBytes (writeBytes buf off (nativeBytes h w x)) off w = nativeBytes h w x := by
  have hlen := nativeBytes_length h w x
  have := readBytes_writeBytes buf (nativeBytes h w x) off hoff
  rwa [hlen] at this

theorem decode_after_write (h : HostOrder) (buf : List Nat) (off w x : Nat)
    (hoff : off ≤ buf.length) (hx : x < 256 ^ w) :
    nativeDecode h (readBytes (writeBytes buf off (nativeBytes h w x)) off w) = x := by
  rw [read_after_write h buf off w x hoff]
  exact nativeDecode_nativeBytes h w x hx

theorem acc_round_trip (a : Accessor) (h : HostOrder) (buf : List Nat)
    (off w v : Nat) (hoff : off ≤ buf.length) (hv : v < 256 ^ w) :
    accGet a h (accSet a h buf off w v) off w = v := by
  cases a with
  | bigAcc =>
    show from_be h w (nativeDecode h (readBytes
      (writeBytes buf off (nativeBytes h w (to_be h w v))) off w)) = v
    rw [decode_after_write h buf off w _ hoff (to_be_lt h w v hv)]
    exact from_be_to_be h w v hv
  | littleAcc =>
    show from_le h w (nativeDecode h (readBytes
      (writeBytes buf off (nativeBytes h w (to_le h w v))) off w)) = v
    rw [decode_after_write h buf off w _ hoff (to_le_lt h w v hv)]
    exact from_le_to_le h w v hv
  | nativeAcc =>
    show nativeDecode h (readBytes
      (writeBytes buf off (nativeBytes h w v)) off w) = v
    exact decode_after_write h buf off w v hoff hv

/-! ## Lemmas about the generation pipeline -/

theorem processItems_fst (items : List NestedItem) (st st1 : Option String × Endian)
    (hok : processItems items st = .ok st1) :
    st1.1 = itemsLastName items st.1 := by
  induction items generalizing st with
  | nil =>
    simp only [processItems] at hok
    cases hok
    rfl
  | cons it rest ih =>
    cases it with
    | nameValue key lit =>
      cases lit with
      | str s =>
        by_cases hke : key = "endian"
        · subst hke
          simp only [processItems, if_pos rfl] at hok
          cases hend : endianOf s with
          | some e =>
            rw [hend] at hok
            have := ih (st.1, e) hok
            simpa [itemsLastName] using this
          | none =>
            rw [hend] at hok
            cases hok
        · by_cases hkn : key = "name"
          · subst hkn
            have hne : ("name" : String) ≠ "endian" := by decide
            simp only [processItems, if_neg hne, if_pos rfl] at hok
            have := ih (some s, st.2) hok
            simpa [itemsLastName] using this
          · simp only [processItems, if_neg hke, if_neg hkn] at hok
            have := ih st hok
            simpa [itemsLastName, hkn] using this
      | otherLit => simp [processItems] at hok
    | metaPath p => simp [processItems] at hok
    | otherNested => simp [processItems] at hok

theorem processAttrs_fst (attrs : List Attr) (st st1 : Option String × Endian)
    (hok : processAttrs attrs st = .ok st1) :
    st1.1 = attrsLastName attrs st.1 := by
  induction attrs generalizing st with
  | nil =>
    simp only [processAttrs] at hok
    cases hok
    rfl
  | cons a rest ih =>
    obtain ⟨style, path, meta⟩ := a
    cases style with
    | inner => simp [processAttrs] at hok
    | outer =>
      cases meta with
      | otherMeta =>
        by_cases hp : path = "nocopy_macro"
        · simp [processAttrs, hp] at hok
        · simp only [processAttrs, if_neg hp] at hok
          simpa [attrsLastName] using ih st hok
      | list items =>
        by_cases hp : path = "nocopy_macro"
        · simp only [processAttrs, if_pos hp] at hok
          cases hpi : processItems items st with
          | ok stMid =>
            simp only [hpi] at hok
            have h2 := processItems_fst items st stMid hpi
            simp only [attrsLastName, if_pos hp, ← h2]
            exact ih stMid hok
          | error e =>
            simp only [hpi] at hok
            cases hok
        · simp only [processAttrs, if_neg hp] at hok
          simpa [attrsLastName, if_neg hp] using ih st hok

/-! ## Claim theorems -/

/-- C1: Round trip — for every field (any declared type `ty`, any byte offset
`off` and width `w` inside the buffer), every endian mode and every
representable value `v < 256 ^ w`, the generated getter applied right after
the generated setter returns exactly `v`, on either host byte order. -/
theorem round_trip_identity (ty : RustType) (e : Endian) (h : HostOrder)
    (buf : List Nat) (off w v : Nat) (hoff : off + w ≤ buf.length)
    (hv : v < 256 ^ w) :
    accGet (match_endian ty e) h
      (accSet (match_endian ty e) h buf off w v) off w = v :=
  acc_round_trip (match_endian ty e) h buf off w v (by omega) hv

/-- Witness for C1 at `ty = u16`, big endian, little-endian host,
`v = 0x0102`. -/
theorem round_trip_identity_witness :
    accGet (match_endian .u16 .Big) .le
      (accSet (match_endian .u16 .Big) .le [0, 0, 0] 0 2 258) 0 2 = 258 :=
  round_trip_identity .u16 .Big .le [0, 0, 0] 0 2 258 (by decide) (by decide)

/-- C2: Byte-order correctness — for an integer-kind field, the setter
generated for endian mode Big leaves the big-endian encoding of `v` in the
field's byte range, the one for Little the little-endian encoding, and the
one for Native (`Endian.Default`) the host's own encoding, on either host
byte order. -/
theorem byte_order_correctness (ty : RustType) (h : HostOrder)
    (buf : List Nat) (off w v : Nat) (hint : isIntKind ty = true)
    (hoff : off + w ≤ buf.length) :
    readBytes (accSet (match_endian ty .Big) h buf off w v) off w =
      toBEBytes w v ∧
    readBytes (accSet (match_endian ty .Little) h buf off w v) off w =
      toLEBytes w v ∧
    readBytes (accSet (match_endian ty .Default) h buf off w v) off w =
      nativeBytes h w v := by
  have hBig : match_endian ty .Big = .bigAcc := by simp [match_endian, hint]
  have hLit : match_endian ty .Little = .littleAcc := by simp [match_endian, hint]
  have hDef : match_endian ty .Default = .nativeAcc := by simp [match_endian, hint]
  refine ⟨?_, ?_, ?_⟩
  · rw [hBig]
    show readBytes (writeBytes buf off (nativeBytes h w (to_be h w v))) off w = _
    rw [read_after_write h buf off w _ (by omega), nativeBytes_to_be]
  · rw [hLit]
    show readBytes (writeBytes buf off (nativeBytes h w (to_le h w v))) off w = _
    rw [read_after_write h buf off w _ (by omega), nativeBytes_to_le]
  · rw [hDef]
    show readBytes (writeBytes buf off (nativeBytes h w v)) off w = _
    rw [read_after_write h buf off w _ (by omega)]

/-- Witness for C2 at `ty = u16`, little-endian host, `v = 0x0102`. -/
theorem byte_order_correctness_witness :
    readBytes (accSet (match_endian .u16 .Big) .le [7, 7, 7] 0 2 258) 0 2 =
      toBEBytes 2 258 ∧
    readBytes (accSet (match_endian .u16 .Little) .le [7, 7, 7] 0 2 258) 0 2 =
      toLEBytes 2 258 ∧
    readBytes (accSet (match_endian .u16 .Default) .le [7, 7, 7] 0 2 258) 0 2 =
      nativeBytes .le 2 258 :=
  byte_order_correctness .u16 .le [7, 7, 7] 0 2 258 rfl (by decide)

/-- C3: Construct/inspect identity — for every byte sequence `B` whose length
equals the union's storage size `n`, `as_buffer` right after
`new_buffer` returns exactly `B`. -/
theorem construct_inspect_identity (n : Nat) (B : List Nat)
    (hB : B.length = n) :
    as_buffer (new_buffer n B hB) = B :=
  rfl

/-- Witness for C3 at `B = [1, 2, 0]`, `n = 3`. -/
theorem construct_inspect_identity_witness :
    as_buffer (new_buffer 3 [1, 2, 0] rfl) = [1, 2, 0] :=
  construct_inspect_identity 3 [1, 2, 0] rfl

/-- C4: Setter frame effect — whatever accessor `match_endian` picked, the
setter only rewrites the bytes in `[off, off + w)`: the buffer keeps its
length, and the prefix before `off` and the suffix from `off + w` on
(padding included) are unchanged. -/
theorem setter_frame_effect (ty : RustType) (e : Endian) (h : HostOrder)
    (buf : List Nat) (off w v : Nat) (hoff : off + w ≤ buf.length) :
    (accSet (match_endian ty e) h buf off w v).length = buf.length ∧
    (accSet (match_endian ty e) h buf off w v).take off = buf.take off ∧
    (accSet (match_endian ty e) h buf off w v).drop (off + w) =
      buf.drop (off + w) := by
  obtain ⟨bs, hlen, heq⟩ := accSet_as_writeBytes (match_endian ty e) h buf off w v
  rw [heq]
  refine ⟨writeBytes_length buf bs off (by omega),
    writeBytes_take buf bs off (by omega), ?_⟩
  have := writeBytes_drop buf bs off (by omega)
  rwa [hlen] at this

/-- Witness for C4 at `ty = u16`, big endian, little-endian host, field at
offset 1 width 2 of a 4-byte buffer. -/
theorem setter_frame_effect_witness :
    (accSet (match_endian .u16 .Big) .le [1, 2, 3, 4] 1 2 513).length =
      ([1, 2, 3, 4] : List Nat).length ∧
    (accSet (match_endian .u16 .Big) .le [1, 2, 3, 4] 1 2 513).take 1 =
      ([1, 2, 3, 4] : List Nat).take 1 ∧
    (accSet (match_endian .u16 .Big) .le [1, 2, 3, 4] 1 2 513).drop (1 + 2) =
      ([1, 2, 3, 4] : List Nat).drop (1 + 2) :=
  setter_frame_effect .u16 .Big .le [1, 2, 3, 4] 1 2 513 (by decide)

/-- C5 counterexample: the claim says an attribute item with a key other than
`name` or `endian` aborts generation with a `ConfigError` and no type is
emitted; but on a struct carrying `nocopy_macro(foo = "bar")` the whole
derive succeeds and emits a type. -/
theorem unknown_key_not_fatal :
    no_copy ⟨"S",
      [⟨.outer, "repr", .list [.metaPath "C"]⟩,
       ⟨.outer, "nocopy_macro", .list [.nameValue "foo" (.str "bar")]⟩],
      .structNamed [⟨"x", .u8⟩]⟩ =
    .ok ⟨"SBuffer", .Default, [("x", .nativeAcc)]⟩ :=
  rfl

/-- C5 amended: an item whose key is neither `name` nor `endian`, as long as
it has the well-formed `key = "string"` shape, is silently ignored:
`extract_meta` succeeds and returns the default configuration. -/
theorem unknown_key_ignored (n key s : String) (hk1 : key ≠ "name")
    (hk2 : key ≠ "endian") :
    extract_meta n [⟨.outer, "nocopy_macro", .list [.nameValue key (.str s)]⟩] =
      .ok (n ++ "Buffer", .Default) := by
  unfold extract_meta
  simp [processAttrs, processItems, hk1, hk2]

/-- Witness for the amended C5 at key `foo`. -/
theorem unknown_key_ignored_witness :
    extract_meta "S" [⟨.outer, "nocopy_macro",
      .list [.nameValue "foo" (.str "bar")]⟩] =
      .ok ("S" ++ "Buffer", .Default) :=
  unknown_key_ignored "S" "foo" "bar" (by decide) (by decide)

/-- C6: Field classification — exactly the declared names `u8`, `u16`, `u32`,
`u64` are integer kinds, and every other declared type gets the pass-through
(`native_endian`) getter/setter pair, which applies no byte-order conversion,
whatever the endian mode. -/
theorem field_classification (ty : RustType) (e : Endian) :
    (isIntKind ty = true ↔
      ty = .u8 ∨ ty = .u16 ∨ ty = .u32 ∨ ty = .u64) ∧
    (isIntKind ty = false →
      match_endian ty e = .nativeAcc ∧
      ∀ (h : HostOrder) (buf : List Nat) (off w v : Nat),
        accSet (match_endian ty e) h buf off w v =
          writeBytes buf off (nativeBytes h w v) ∧
        accGet (match_endian ty e) h buf off w =
          nativeDecode h (readBytes buf off w)) := by
  constructor
  · cases ty <;> simp [isIntKind]
  · intro hop
    have hne : match_endian ty e = .nativeAcc := by simp [match_endian, hop]
    exact ⟨hne, fun h buf off w v => by rw [hne]; exact ⟨rfl, rfl⟩⟩

/-- Witness for C6 at the non-integer type `i32` with endian mode Big. -/
theorem field_classification_witness :
    match_endian (.other "i32") .Big = .nativeAcc :=
  ((field_classification (.other "i32") .Big).2 rfl).1

/-- C7: Fixed-layout marker required — the derive aborts with the
missing-`repr(C)` panic exactly when no attribute of the input is the
`repr(C)` marker; in particular an input carrying the marker never fails
that check. -/
theorem repr_c_marker_required (input : DeriveInput) :
    no_copy input = .error (.schema .noReprC) ↔
      ∀ a ∈ input.attrs, isReprC a = false := by
  unfold no_copy
  by_cases hlt : (input.attrs.filter isReprC).length < 1
  · rw [if_pos hlt]
    have hnil : input.attrs.filter isReprC = [] :=
      List.length_eq_zero.mp (by omega)
    have hall : ∀ a ∈ input.attrs, isReprC a = false := by
      intro a ha
      by_contra hcon
      have hmem : a ∈ input.attrs.filter isReprC :=
        List.mem_filter.mpr ⟨ha, by simpa using hcon⟩
      rw [hnil] at hmem
      cases hmem
    exact iff_of_true rfl hall
  · rw [if_neg hlt]
    have hne : input.attrs.filter isReprC ≠ [] := by
      intro hnil
      rw [hnil] at hlt
      simp at hlt
    obtain ⟨a, ha⟩ := List.exists_mem_of_ne_nil _ hne
    apply iff_of_false
    · intro hcon
      cases hext : extract_meta input.ident input.attrs with
      | error e => simp [hext] at hcon
      | ok p =>
        obtain ⟨nm, en⟩ := p
        cases hd : input.data with
        | structNamed fields => simp [hext, hd] at hcon
        | structUnnamed => simp [hext, hd] at hcon
        | notStructData => simp [hext, hd] at hcon
    · intro hall
      have h1 := hall a (List.mem_filter.mp ha).1
      have h2 := (List.mem_filter.mp ha).2
      rw [h1] at h2
      cases h2

/-- C8: Naming — when `extract_meta` succeeds, the union's name is the last
`name = "..."` value among the `nocopy_macro` attributes if one is present,
and the struct name with `Buffer` appended otherwise. -/
theorem naming_default_and_override (n : String) (attrs : List Attr)
    (out : String) (e : Endian) (hok : extract_meta n attrs = .ok (out, e)) :
    out = (attrsLastName attrs none).getD (n ++ "Buffer") := by
  unfold extract_meta at hok
  cases hpa : processAttrs attrs (none, Endian.Default) with
  | ok st =>
    obtain ⟨idOpt, e1⟩ := st
    simp only [hpa] at hok
    have h1 : idOpt = attrsLastName attrs none :=
      processAttrs_fst attrs (none, Endian.Default) (idOpt, e1) hpa
    cases hok
    rw [← h1]
  | error err =>
    simp only [hpa] at hok
    cases hok

/-- Witness for C8: an explicit `name = "Foo"` attribute on struct `Example`
resolves to `Foo`. -/
theorem naming_default_and_override_witness :
    ("Foo" : String) =
      (attrsLastName
        [⟨.outer, "nocopy_macro", .list [.nameValue "name" (.str "Foo")]⟩]
        none).getD ("Example" ++ "Buffer") :=
  naming_default_and_override "Example"
    [⟨.outer, "nocopy_macro", .list [.nameValue "name" (.str "Foo")]⟩]
    "Foo" Endian.Default rfl

/-- C9: The spec's concrete scenario — deriving on `Example` with
`endian = "big"` emits `ExampleBuffer` with big-endian accessors for both
fields; on the instance built from `[0x01, 0x02, 0x00]`, `get_a` returns
`0x0102`, `get_b` returns `0`, and after `set_b(5)` the bytes are
`[0x01, 0x02, 0x05]` — on either host byte order. -/
theorem concrete_example_scenario (h : HostOrder) :
    no_copy exampleInput = .ok exampleGen ∧
    example_get_a h (as_buffer exBuf) = 258 ∧
    example_get_b h (as_buffer exBuf) = 0 ∧
    example_set_b h (as_buffer exBuf) 5 = [1, 2, 5] := by
  cases h <;> exact ⟨rfl, rfl, rfl, rfl⟩

end Buffering
